import Mathlib

/-!
Shallow embedding of the pixel-processing core of `src/app/src/app/page.tsx`
(the `computeMetrics`, `boxBlur`, `median3x3`, `unsharpMask` and `equalizeLuma`
closures), together with theorems settling the specification claims about it.

Buffers are modelled as total functions `ℕ → ℕ` from flat RGBA sample index to
8-bit sample value (the data model fixes `length = width*height*4` and byte
values); JavaScript number arithmetic is modelled exactly over `ℚ`
(and over `ℝ` where `Math.hypot` takes a square root).
-/

namespace ForensicFace

/-- Flat RGBA sample index `(y * w + x) * 4 + c`, the layout
`idx(x, y) * 4 + c` used throughout the source. -/
def cidx (w x y c : ℕ) : ℕ := (y * w + x) * 4 + c

/-- JavaScript `Math.round`: round half toward positive infinity. -/
def jsRound (q : ℚ) : ℤ := ⌊q + 1/2⌋

/-- Storing an integer into a `Uint8ClampedArray` slot clamps it to `[0, 255]`
(the source additionally writes `Math.max(0, Math.min(255, v))` in places,
which is the same map). -/
def toByte (n : ℤ) : ℕ := (max 0 (min 255 n)).toNat

/-- A buffer is byte-valued (the `Uint8ClampedArray` value invariant). -/
def ByteBuf (d : ℕ → ℕ) : Prop := ∀ i, d i ≤ 255

/-! ## `computeMetrics` (source lines 75-139) -/

/-- Grayscale `0.299*r + 0.587*g + 0.114*b` of the pixel at `(x, y)`
(source lines 77-83, `gray[j]`). -/
def grayAt (d : ℕ → ℕ) (w x y : ℕ) : ℚ :=
  0.299 * (d (cidx w x y 0) : ℚ) + 0.587 * (d (cidx w x y 1) : ℚ)
    + 0.114 * (d (cidx w x y 2) : ℚ)

/-- The Laplacian value `v` computed at an interior pixel (source line 93). -/
def lapRaw (d : ℕ → ℕ) (w x y : ℕ) : ℚ :=
  -grayAt d w (x-1) y - grayAt d w (x+1) y - grayAt d w x (y-1)
    - grayAt d w x (y+1) + 4 * grayAt d w x y

/-- The interior pixel region `1 ≤ x < w-1`, `1 ≤ y < h-1` scanned by the
Laplacian and Sobel loops (source lines 91-92, 109-110). -/
def interiorF (w h : ℕ) : Finset (ℕ × ℕ) :=
  Finset.Ico 1 (w-1) ×ˢ Finset.Ico 1 (h-1)

/-- Source `count`: number of interior pixels visited by the Laplacian loop. -/
def lapCount (w h : ℕ) : ℕ := (interiorF w h).card

/-- Source `mean` after the division on source line 99: the interior sum of the
Laplacian divided by `Math.max(1, count)`. -/
def lapMean (d : ℕ → ℕ) (w h : ℕ) : ℚ :=
  (∑ p ∈ interiorF w h, lapRaw d w p.1 p.2) / max 1 (lapCount w h)

/-- Entry of the `lap` array at pixel `p`: the `Float32Array` is zero-initialised
and the loop writes `lap[idx(x, y)]` only at interior pixels (source line 94). -/
def lapP (d : ℕ → ℕ) (w h : ℕ) (p : ℕ × ℕ) : ℚ :=
  if p ∈ interiorF w h then lapRaw d w p.1 p.2 else 0

/-- Source `lap[i]` for a flat pixel index `i` (`i = y * w + x`). -/
def lapArr (d : ℕ → ℕ) (w h i : ℕ) : ℚ := lapP d w h (i % w, i / w)

/-- Source `variance` (source lines 100-105): note the deviation sum ranges over all
`w*h` entries of `lap`, while the divisor is `Math.max(1, count)` with `count`
the number of interior pixels only. -/
def blurVarianceD (d : ℕ → ℕ) (w h : ℕ) : ℚ :=
  (∑ i ∈ Finset.range (w*h), (lapArr d w h i - lapMean d w h)^2)
    / max 1 (lapCount w h)

/-- Sobel `gx` at an interior pixel (source line 111). -/
def sobelGx (d : ℕ → ℕ) (w x y : ℕ) : ℚ :=
  -grayAt d w (x-1) (y-1) - 2 * grayAt d w (x-1) y - grayAt d w (x-1) (y+1)
    + grayAt d w (x+1) (y-1) + 2 * grayAt d w (x+1) y + grayAt d w (x+1) (y+1)

/-- Sobel `gy` at an interior pixel (source line 112). -/
def sobelGy (d : ℕ → ℕ) (w x y : ℕ) : ℚ :=
  -grayAt d w (x-1) (y-1) - 2 * grayAt d w x (y-1) - grayAt d w (x+1) (y-1)
    + grayAt d w (x-1) (y+1) + 2 * grayAt d w x (y+1) + grayAt d w (x+1) (y+1)

/-- The divisor `Math.max(1, (w - 2) * (h - 2))` of source line 116, with the
JavaScript subtraction modelled over `ℤ`. -/
def gradDen (w h : ℕ) : ℤ := max 1 (((w:ℤ) - 2) * ((h:ℤ) - 2))

/-- Source `gradEnergy` (source lines 108-116): mean of `Math.hypot(gx, gy)` over the
interior region. -/
noncomputable def gradientEnergyD (d : ℕ → ℕ) (w h : ℕ) : ℝ :=
  (∑ p ∈ interiorF w h,
      Real.sqrt ((sobelGx d w p.1 p.2 : ℝ)^2 + (sobelGy d w p.1 p.2 : ℝ)^2))
    / (gradDen w h : ℝ)

/-- Source `symmetryScore` (source lines 118-129): `mid = Math.floor(w / 2)`, the loop
accumulates `1 - Math.min(1, |a - b| / 255)` over `pix = h * mid` pairs and
divides by `Math.max(1, pix)`. -/
def symScoreD (d : ℕ → ℕ) (w h : ℕ) : ℚ :=
  (∑ y ∈ Finset.range h, ∑ x ∈ Finset.range (w/2),
      (1 - min 1 (|grayAt d w x y - grayAt d w (w-1-x) y| / 255)))
    / max 1 (h * (w/2))

/-- Source `spoofRisk` (source lines 131-136). -/
noncomputable def spoofRiskD (d : ℕ → ℕ) (w h : ℕ) : ℝ :=
  min 1 (0.6 * (1 - min 1 ((blurVarianceD d w h : ℝ) / 2000))
    + 0.3 * min 1 (gradientEnergyD d w h / 50) + 0.1 * (symScoreD d w h : ℝ))

/-- The `Metrics` record returned by `computeMetrics` (source lines 7-12). -/
structure Metrics where
  blurVariance : ℚ
  gradientEnergy : ℝ
  symmetryScore : ℚ
  spoofRisk : ℝ

/-- Source `computeMetrics` (source lines 75-139). -/
noncomputable def computeMetrics (d : ℕ → ℕ) (w h : ℕ) : Metrics :=
  { blurVariance := blurVarianceD d w h
    gradientEnergy := gradientEnergyD d w h
    symmetryScore := symScoreD d w h
    spoofRisk := spoofRiskD d w h }

/-! ## `boxBlur` (source lines 141-172) -/

/-- Initial value of the running sum `val` of a sliding-window pass: the
`(r + 1) * fv` of source line 152 plus the priming loop of source line 153
(`fv` is the line's first sample `s 0`). -/
def slideInit (s : ℕ → ℚ) (r : ℕ) : ℚ :=
  (r+1) * s 0 + ∑ j ∈ Finset.range r, s j

/-- The update added to `val` at the end of the iteration that writes position
`t`: the three branches are the loop bodies of source lines 154, 155 and 156,
which cover `t ≤ r`, `r < t < w - r` and `w - r ≤ t` respectively (in each, the
write happens first and the update second); `s 0` is `fv`, `s (w-1)` is `lv`,
and the running pointers satisfy `ri = t + r` and `li = t - (r+1)`.  This
models the source's pointer arithmetic in the regime `2*r+1 ≤ w`, which holds
in every claim (for `r = 0` it holds for every `w ≥ 1`). -/
def slideDelta (s : ℕ → ℚ) (w r t : ℕ) : ℚ :=
  if t ≤ r then s (r + t) - s 0
  else if t < w - r then s (t + r) - s (t - (r+1))
  else s (w - 1) - s (t - (r+1))

/-- Value of the running sum `val` just before the write at position `x`: the
initialisation plus the updates of all previous iterations. -/
def slideVal (s : ℕ → ℚ) (w r x : ℕ) : ℚ :=
  slideInit s r + ∑ t ∈ Finset.range x, slideDelta s w r t

/-- Source `tmp[idx(x, y)*4 + c]`: output of the horizontal pass
(source lines 148-158). -/
def boxBlurHAt (src : ℕ → ℕ) (w r x y c : ℕ) : ℕ :=
  toByte (jsRound (slideVal (fun j => (src (cidx w j y c) : ℚ)) w r x
    / ((r : ℚ) + r + 1)))

/-- Source `dst[idx(x, y)*4 + c]`: output of the vertical pass over `tmp`, i.e. of
`boxBlur(src, w, h, r)` (source lines 160-170). -/
def boxBlurAt (src : ℕ → ℕ) (w h r x y c : ℕ) : ℕ :=
  toByte (jsRound (slideVal (fun j => (boxBlurHAt src w r x j c : ℚ)) h r y
    / ((r : ℚ) + r + 1)))

/-! ## `median3x3` (source lines 174-196) -/

/-- Source `Math.max(0, Math.min(n - 1, j))`: clamp a neighbour coordinate into
`[0, n-1]` (source lines 184-185). -/
def clampC (n : ℕ) (j : ℤ) : ℕ := (max 0 (min ((n:ℤ) - 1) j)).toNat

/-- The list `vals` of the 9 clamped 3x3 neighbourhood samples of channel `c`
at `(x, y)`, gathered in the source's `j` (row) outer, `i` (column) inner order
(source lines 181-188). -/
def nbhdVals (src : ℕ → ℕ) (w h x y c : ℕ) : List ℕ :=
  [src (cidx w (clampC w ((x:ℤ) - 1)) (clampC h ((y:ℤ) - 1)) c),
   src (cidx w (clampC w ((x:ℤ)    )) (clampC h ((y:ℤ) - 1)) c),
   src (cidx w (clampC w ((x:ℤ) + 1)) (clampC h ((y:ℤ) - 1)) c),
   src (cidx w (clampC w ((x:ℤ) - 1)) (clampC h ((y:ℤ)    )) c),
   src (cidx w (clampC w ((x:ℤ)    )) (clampC h ((y:ℤ)    )) c),
   src (cidx w (clampC w ((x:ℤ) + 1)) (clampC h ((y:ℤ)    )) c),
   src (cidx w (clampC w ((x:ℤ) - 1)) (clampC h ((y:ℤ) + 1)) c),
   src (cidx w (clampC w ((x:ℤ)    )) (clampC h ((y:ℤ) + 1)) c),
   src (cidx w (clampC w ((x:ℤ) + 1)) (clampC h ((y:ℤ) + 1)) c)]

/-- One output sample of `median3x3`: for `c < 3` the element at index 4 of the
ascending sort of `vals` (source lines 189-190), for the alpha channel the
source alpha of the same pixel (source line 192). -/
def median3x3At (src : ℕ → ℕ) (w h x y c : ℕ) : ℕ :=
  if c < 3 then ((nbhdVals src w h x y c).insertionSort (· ≤ ·)).getD 4 0
  else src (cidx w x y 3)

/-- The output buffer of `median3x3` as a list: a freshly allocated buffer of
the source's length (source line 175) whose entry at flat index `i` is the
sample the loops write there. -/
def median3x3L (src : List ℕ) (w h : ℕ) : List ℕ :=
  (List.range src.length).map fun i =>
    median3x3At (fun j => src.getD j 0) w h (i / 4 % w) (i / 4 / w) (i % 4)

/-! ## `unsharpMask` (source lines 198-211) -/

/-- One output sample of `unsharpMask`: for `c < 3`,
`clamp(round(s + amount * (s - b)))` where `b` is the box-blurred sample
(source lines 199-207); alpha passed through (source line 208). -/
def unsharpAt (src : ℕ → ℕ) (w h r : ℕ) (amount : ℚ) (x y c : ℕ) : ℕ :=
  if c < 3 then
    toByte (jsRound ((src (cidx w x y c) : ℚ)
      + amount * ((src (cidx w x y c) : ℚ) - (boxBlurAt src w h r x y c : ℚ))))
  else src (cidx w x y 3)

/-! ## `equalizeLuma` (source lines 213-251) -/

/-- Red channel of pixel `p` normalised to `[0, 1]` (source line 220). -/
def rN (src : ℕ → ℕ) (p : ℕ) : ℚ := (src (4*p) : ℚ) / 255

/-- Green channel of pixel `p` normalised to `[0, 1]`. -/
def gN (src : ℕ → ℕ) (p : ℕ) : ℚ := (src (4*p + 1) : ℚ) / 255

/-- Blue channel of pixel `p` normalised to `[0, 1]`. -/
def bN (src : ℕ → ℕ) (p : ℕ) : ℚ := (src (4*p + 2) : ℚ) / 255

/-- Luma `y` of pixel `p` (source line 221). -/
def yOf (src : ℕ → ℕ) (p : ℕ) : ℚ :=
  0.299 * rN src p + 0.587 * gN src p + 0.114 * bN src p

/-- Chroma `u` of pixel `p` (source line 222). -/
def uOf (src : ℕ → ℕ) (p : ℕ) : ℚ :=
  -0.14713 * rN src p - 0.28886 * gN src p + 0.436 * bN src p

/-- Chroma `v` of pixel `p` (source line 223). -/
def vOf (src : ℕ → ℕ) (p : ℕ) : ℚ :=
  0.615 * rN src p - 0.51499 * gN src p - 0.10001 * bN src p

/-- Source `yArr[p] = Math.round(y * 255)` stored in a `Uint8Array`
(source line 224). -/
def yQ (src : ℕ → ℕ) (p : ℕ) : ℕ := (jsRound (yOf src p * 255)).toNat % 256

/-- Source `hist[t]`: number of pixels whose quantised luma is `t`
(source lines 227-228). -/
def histF (src : ℕ → ℕ) (total t : ℕ) : ℕ :=
  ((Finset.range total).filter (fun p => yQ src p = t)).card

/-- Source `cdf[t]`: cumulative histogram (source lines 229-231). -/
def cdfF (src : ℕ → ℕ) (total t : ℕ) : ℕ :=
  ∑ k ∈ Finset.range (t+1), histF src total k

/-- Source `cdfMin = cdf.find(v => v > 0) ?? 0`: the first positive cumulative count
(source line 232). -/
def cdfMinF (src : ℕ → ℕ) (total : ℕ) : ℕ :=
  (((List.range 256).find? (fun t => decide (0 < cdfF src total t))).map
    (cdfF src total)).getD 0

/-- Source `eqY[p]`: the equalised luma
`clamp((cdf[yArr[p]] - cdfMin) / Math.max(1, total - cdfMin), 0, 1)`
(source lines 234-237). -/
def eqY (src : ℕ → ℕ) (w h p : ℕ) : ℚ :=
  max 0 (min 1 (((cdfF src (w*h) (yQ src p) : ℚ) - (cdfMinF src (w*h) : ℚ))
    / max 1 ((w*h : ℚ) - (cdfMinF src (w*h) : ℚ))))

/-- One output sample of `equalizeLuma` at pixel `p`, channel `c`: RGB is
reconstructed from the equalised luma and the pixel's original chroma and
clamped (source lines 239-248); alpha copied from the source. -/
def equalizeAt (src : ℕ → ℕ) (w h p c : ℕ) : ℕ :=
  if c = 0 then toByte (jsRound ((eqY src w h p + 1.13983 * vOf src p) * 255))
  else if c = 1 then
    toByte (jsRound ((eqY src w h p - 0.39465 * uOf src p
      - 0.58060 * vOf src p) * 255))
  else if c = 2 then
    toByte (jsRound ((eqY src w h p + 2.03211 * uOf src p) * 255))
  else src (4*p + 3)

/-! ## Specification-side comparison definitions

These two definitions are written from the words of the specification / claims
(not from the source) and exist only to be compared with the source-derived
definitions above. -/

/-- The quantity the specification says `blurVariance` reports: the population
variance of the Laplacian over exactly the interior pixels (mean over interior
pixels of the squared deviation from the interior mean). -/
def interiorPopVariance (d : ℕ → ℕ) (w h : ℕ) : ℚ :=
  (∑ p ∈ interiorF w h,
      (lapRaw d w p.1 p.2
        - (∑ q ∈ interiorF w h, lapRaw d w q.1 q.2) / (lapCount w h : ℚ))^2)
    / (lapCount w h : ℚ)

/-- The horizontal-pass sample the claim describes for `boxBlur`: the rounded
mean of the `2r+1` source samples at columns `x-r .. x+r`, out-of-range columns
replaced by the nearest edge sample. -/
def specBoxHAt (src : ℕ → ℕ) (w r x y c : ℕ) : ℕ :=
  toByte (jsRound ((∑ k ∈ Finset.range (2*r+1),
    (src (cidx w (clampC w ((x:ℤ) + k - r)) y c) : ℚ)) / (2*r+1 : ℚ)))

/-- The output sample the claim describes for `boxBlur`: the vertical pass of
the same centred window mean, over the rows of the horizontal result. -/
def specBoxAt (src : ℕ → ℕ) (w h r x y c : ℕ) : ℕ :=
  toByte (jsRound ((∑ k ∈ Finset.range (2*r+1),
    (specBoxHAt src w r x (clampC h ((y:ℤ) + k - r)) c : ℚ)) / (2*r+1 : ℚ)))

/-! ## Concrete images used by counterexamples and witnesses -/

/-- A 3x3 RGBA image, all alpha 255: the centre pixel `(1, 1)` (flat pixel
index 4) is white, every other pixel black. -/
def imgCenter : ℕ → ℕ := fun i =>
  if i % 4 = 3 then 255 else if i / 4 = 4 then 255 else 0

/-- A 3x3 RGBA image whose red sample at pixel `(1, 0)` is 90 and whose every
other sample is 0. -/
def imgDot : ℕ → ℕ := fun i => if i = 4 then 90 else 0

/-- A 2x1 RGBA image with red samples 10 and 200. -/
def imgPair : ℕ → ℕ := fun i => if i = 0 then 10 else if i = 4 then 200 else 0

/-- A 1x1 RGBA image with all four samples 100. -/
def imgFlat : ℕ → ℕ := fun _ => 100

/-! ## Evaluation helpers -/

lemma jsRound_eq {q : ℚ} {n : ℤ} (h1 : (n : ℚ) ≤ q + 1/2) (h2 : q + 1/2 < n + 1) :
    jsRound q = n := by
  rw [jsRound]
  exact Int.floor_eq_iff.mpr ⟨h1, h2⟩

lemma jsRound_natCast (n : ℕ) : jsRound (n : ℚ) = n := by
  apply jsRound_eq <;> push_cast <;> norm_num

lemma toByte_of_le {n : ℤ} (h0 : 0 ≤ n) (h255 : n ≤ 255) : toByte n = n.toNat := by
  rw [toByte, min_eq_right h255, max_eq_right h0]

lemma toByte_natCast (n : ℕ) (h : n ≤ 255) : toByte (n : ℤ) = n := by
  rw [toByte_of_le (by positivity) (by exact_mod_cast h), Int.toNat_natCast]

lemma toByte_jsRound_natCast (n : ℕ) (h : n ≤ 255) : toByte (jsRound (n : ℚ)) = n := by
  rw [jsRound_natCast, toByte_natCast n h]

lemma getD_map_range {α : Type} (f : ℕ → α) (n i : ℕ) (d : α) (h : i < n) :
    ((List.range n).map f).getD i d = f i := by
  rw [List.getD_eq_getElem?_getD, List.getElem?_map, List.getElem?_range h]
  rfl

lemma cidx_lt {w h x y c : ℕ} (hx : x < w) (hy : y < h) (hc : c < 4) :
    cidx w x y c < w * h * 4 := by
  have hk : y * w + x < w * h := by
    have h1 : y * w + x < y * w + w := Nat.add_lt_add_left hx _
    have h2 : (y + 1) * w ≤ h * w := Nat.mul_le_mul_right w hy
    rw [add_one_mul] at h2
    exact lt_of_lt_of_le h1 (h2.trans_eq (Nat.mul_comm h w))
  rw [cidx]
  set k := y * w + x
  set m := w * h
  omega

lemma cidx_decode {w x y c : ℕ} (hx : x < w) (hc : c < 4) :
    cidx w x y c / 4 % w = x ∧ cidx w x y c / 4 / w = y ∧ cidx w x y c % 4 = c := by
  have hw : 0 < w := by omega
  rw [cidx]
  set k := y * w + x with hk
  have hdiv : (k * 4 + c) / 4 = k := by omega
  have hmod : (k * 4 + c) % 4 = c := by omega
  refine ⟨?_, ?_, hmod⟩
  · rw [hdiv, hk, Nat.add_comm (y * w) x, Nat.add_mul_mod_self_right,
      Nat.mod_eq_of_lt hx]
  · rw [hdiv, hk, Nat.add_comm (y * w) x, Nat.add_mul_div_right _ _ hw,
      Nat.div_eq_of_lt hx, Nat.zero_add]

lemma interiorF_empty {w h : ℕ} (hsm : w < 3 ∨ h < 3) : interiorF w h = ∅ := by
  rw [interiorF]
  rcases hsm with hw | hh
  · rw [Finset.Ico_eq_empty (by omega : ¬ 1 < w - 1), Finset.empty_product]
  · rw [Finset.Ico_eq_empty (by omega : ¬ 1 < h - 1), Finset.product_empty]

lemma gradientEnergyD_nonneg (d : ℕ → ℕ) (w h : ℕ) : 0 ≤ gradientEnergyD d w h := by
  rw [gradientEnergyD]
  apply div_nonneg
  · exact Finset.sum_nonneg fun p _ => Real.sqrt_nonneg _
  · have h1 : (1:ℤ) ≤ gradDen w h := le_max_left _ _
    have : (0:ℤ) ≤ gradDen w h := by omega
    exact_mod_cast this

lemma blurVarianceD_nonneg (d : ℕ → ℕ) (w h : ℕ) : 0 ≤ blurVarianceD d w h := by
  rw [blurVarianceD]
  apply div_nonneg (Finset.sum_nonneg fun i _ => sq_nonneg _)
  positivity

lemma symScoreD_nonneg (d : ℕ → ℕ) (w h : ℕ) : 0 ≤ symScoreD d w h := by
  rw [symScoreD]
  apply div_nonneg ?_ (by positivity)
  refine Finset.sum_nonneg fun y _ => Finset.sum_nonneg fun x _ => ?_
  have hm : min 1 (|grayAt d w x y - grayAt d w (w-1-x) y| / 255) ≤ 1 :=
    min_le_left _ _
  linarith

lemma symScoreD_le_one (d : ℕ → ℕ) (w h : ℕ) : symScoreD d w h ≤ 1 := by
  rw [symScoreD]
  rw [div_le_one (by positivity : (0:ℚ) < ((max 1 (h * (w/2)) : ℕ) : ℚ))]
  calc
    ∑ y ∈ Finset.range h, ∑ x ∈ Finset.range (w/2),
        (1 - min 1 (|grayAt d w x y - grayAt d w (w-1-x) y| / 255))
      ≤ ∑ y ∈ Finset.range h, ∑ x ∈ Finset.range (w/2), (1:ℚ) := by
        refine Finset.sum_le_sum fun y _ => Finset.sum_le_sum fun x _ => ?_
        have hm : (0:ℚ) ≤ min 1 (|grayAt d w x y - grayAt d w (w-1-x) y| / 255) :=
          le_min (by norm_num) (by positivity)
        linarith
    _ = ((h * (w/2) : ℕ) : ℚ) := by
        simp [Finset.sum_const, mul_comm]
    _ ≤ ((max 1 (h * (w/2)) : ℕ) : ℚ) := by
        exact_mod_cast Nat.cast_le.mpr (le_max_right 1 (h * (w/2)))

lemma find?_range'_eq_some (p : ℕ → Bool) :
    ∀ (n s b : ℕ), s ≤ b → b < s + n → p b = true →
      (∀ t, s ≤ t → t < b → p t = false) →
      (List.range' s n).find? p = some b := by
  intro n
  induction n with
  | zero => intro s b h1 h2 _ _; omega
  | succ n ih =>
    intro s b h1 h2 hpb hmin
    rw [List.range'_succ]
    by_cases hs : s = b
    · subst hs
      exact List.find?_cons_of_pos _ hpb
    · rw [List.find?_cons_of_neg _ (by rw [hmin s le_rfl (by omega)]; simp)]
      exact ih (s+1) b (by omega) (by omega) hpb
        fun t ht1 ht2 => hmin t (by omega) ht2

lemma find?_range_eq_some (p : ℕ → Bool) (n b : ℕ) (hb : b < n)
    (hpb : p b = true) (hmin : ∀ t, t < b → p t = false) :
    (List.range n).find? p = some b := by
  rw [List.range_eq_range']
  exact find?_range'_eq_some p n 0 b (Nat.zero_le b) (by omega) hpb
    fun t _ ht2 => hmin t ht2

lemma sum_range_mul_eq_sum_product (w h : ℕ) (f : ℕ × ℕ → ℚ) :
    ∑ i ∈ Finset.range (w * h), f (i % w, i / w)
      = ∑ p ∈ Finset.range w ×ˢ Finset.range h, f p := by
  rcases Nat.eq_zero_or_pos w with hw | hw
  · subst hw; simp
  refine Finset.sum_nbij' (fun i => (i % w, i / w)) (fun p => p.2 * w + p.1)
    ?_ ?_ ?_ ?_ ?_
  · intro i hi
    rw [Finset.mem_range] at hi
    rw [Finset.mem_product, Finset.mem_range, Finset.mem_range]
    exact ⟨Nat.mod_lt i hw, Nat.div_lt_of_lt_mul (by omega)⟩
  · intro p hp
    rw [Finset.mem_product, Finset.mem_range, Finset.mem_range] at hp
    rw [Finset.mem_range]
    have h1 : p.2 * w + p.1 < p.2 * w + w := Nat.add_lt_add_left hp.1 _
    have h2 : (p.2 + 1) * w ≤ h * w := Nat.mul_le_mul_right w hp.2
    rw [add_one_mul] at h2
    exact lt_of_lt_of_le h1 (h2.trans_eq (Nat.mul_comm h w))
  · intro i _
    show i / w * w + i % w = i
    rw [Nat.mul_comm]
    exact Nat.div_add_mod i w
  · intro p hp
    rw [Finset.mem_product, Finset.mem_range, Finset.mem_range] at hp
    have hm : (p.2 * w + p.1) % w = p.1 := by
      rw [Nat.add_comm, Nat.add_mul_mod_self_right, Nat.mod_eq_of_lt hp.1]
    have hd : (p.2 * w + p.1) / w = p.2 := by
      rw [Nat.add_comm, Nat.add_mul_div_right _ _ hw, Nat.div_eq_of_lt hp.1,
        Nat.zero_add]
    show ((p.2 * w + p.1) % w, (p.2 * w + p.1) / w) = p
    rw [hm, hd]
  · intro i _
    rfl

lemma lapCount_eq (w h : ℕ) : lapCount w h = (w - 2) * (h - 2) := by
  rw [lapCount, interiorF, Finset.card_product, Nat.card_Ico, Nat.card_Ico,
    Nat.sub_sub, Nat.sub_sub]

lemma interiorF_subset (w h : ℕ) :
    interiorF w h ⊆ Finset.range w ×ˢ Finset.range h := by
  intro p hp
  rw [interiorF, Finset.mem_product, Finset.mem_Ico, Finset.mem_Ico] at hp
  rw [Finset.mem_product, Finset.mem_range, Finset.mem_range]
  omega

/-! ## Claim theorems -/

/-- Claim C4: for every image, the `spoofRisk` field returned by
`computeMetrics` is computed from the other three fields of the same record by
exactly `min(1, 0.6*(1 - min(1, blurVariance/2000)) +
0.3*min(1, gradientEnergy/50) + 0.1*symmetryScore)`, with the constants 0.6,
0.3, 0.1, 2000 and 50 exactly as stated. -/
theorem spoofRisk_formula_of_fields (d : ℕ → ℕ) (w h : ℕ) :
    (computeMetrics d w h).spoofRisk =
      min 1 (0.6 * (1 - min 1 (((computeMetrics d w h).blurVariance : ℝ) / 2000))
        + 0.3 * min 1 ((computeMetrics d w h).gradientEnergy / 50)
        + 0.1 * ((computeMetrics d w h).symmetryScore : ℝ)) := rfl

/-- Claim C6: `equalizeLuma` preserves chrominance and alpha: each output pixel
is reconstructed by `R = Y' + 1.13983 V`, `G = Y' - 0.39465 U - 0.58060 V`,
`B = Y' + 2.03211 U` where `U` and `V` are exactly the values
`-0.14713 R - 0.28886 G + 0.436 B` and `0.615 R - 0.51499 G - 0.10001 B` of the
pixel's original `[0,1]`-normalised RGB, and the output alpha equals the source
alpha; only the luminance `Y'` is remapped. -/
theorem equalizeLuma_preserves_chroma_alpha (src : ℕ → ℕ) (w h p : ℕ) :
    equalizeAt src w h p 0 =
      toByte (jsRound ((eqY src w h p
        + 1.13983 * (0.615 * ((src (4*p) : ℚ)/255) - 0.51499 * ((src (4*p+1) : ℚ)/255)
            - 0.10001 * ((src (4*p+2) : ℚ)/255))) * 255))
    ∧ equalizeAt src w h p 1 =
      toByte (jsRound ((eqY src w h p
        - 0.39465 * (-0.14713 * ((src (4*p) : ℚ)/255) - 0.28886 * ((src (4*p+1) : ℚ)/255)
            + 0.436 * ((src (4*p+2) : ℚ)/255))
        - 0.58060 * (0.615 * ((src (4*p) : ℚ)/255) - 0.51499 * ((src (4*p+1) : ℚ)/255)
            - 0.10001 * ((src (4*p+2) : ℚ)/255))) * 255))
    ∧ equalizeAt src w h p 2 =
      toByte (jsRound ((eqY src w h p
        + 2.03211 * (-0.14713 * ((src (4*p) : ℚ)/255) - 0.28886 * ((src (4*p+1) : ℚ)/255)
            + 0.436 * ((src (4*p+2) : ℚ)/255))) * 255))
    ∧ equalizeAt src w h p 3 = src (4*p + 3) :=
  ⟨rfl, rfl, rfl, rfl⟩

/-- Claim C9: for every RGBA buffer, width, height and radius, `unsharpMask`
with amount 0 is the identity transform on every sample (RGB and alpha). -/
theorem unsharpMask_amount_zero_id (src : ℕ → ℕ) (w h r x y c : ℕ)
    (hsrc : ByteBuf src) (hc : c < 4) :
    unsharpAt src w h r 0 x y c = src (cidx w x y c) := by
  by_cases h3 : c < 3
  · rw [unsharpAt, if_pos h3, zero_mul, add_zero,
      toByte_jsRound_natCast _ (hsrc _)]
  · have hc3 : c = 3 := by omega
    rw [unsharpAt, if_neg h3, hc3]

/-- Witness for C9 at a concrete 1x1 buffer. -/
theorem unsharpMask_amount_zero_id_witness :
    ByteBuf imgFlat ∧ (0:ℕ) < 4
      ∧ unsharpAt imgFlat 1 1 1 0 0 0 0 = imgFlat (cidx 1 0 0 0) :=
  ⟨fun _ => (by decide : (100:ℕ) ≤ 255), by decide,
    unsharpMask_amount_zero_id imgFlat 1 1 1 0 0 0
      (fun _ => (by decide : (100:ℕ) ≤ 255)) (by decide)⟩

/-- Claim C5: `median3x3` returns a buffer of identical length in which every
R, G, B sample is the element at rank index 4 (0-based) of the ascending sort
of the 9 samples of that channel in the pixel's coordinate-clamped 3x3
neighbourhood, and the alpha channel at every pixel equals the source alpha. -/
theorem median3x3_rank4_and_alpha (src : List ℕ) (w h : ℕ)
    (hlen : src.length = w * h * 4) :
    (median3x3L src w h).length = src.length
    ∧ (∀ x y c, x < w → y < h → c < 3 →
        (median3x3L src w h).getD (cidx w x y c) 0 =
          ((nbhdVals (fun j => src.getD j 0) w h x y c).insertionSort
            (· ≤ ·)).getD 4 0)
    ∧ (∀ x y, x < w → y < h →
        (median3x3L src w h).getD (cidx w x y 3) 0 = src.getD (cidx w x y 3) 0) := by
  refine ⟨by rw [median3x3L, List.length_map, List.length_range], ?_, ?_⟩
  · intro x y c hx hy hc
    obtain ⟨h1, h2, h3⟩ := cidx_decode hx (by omega : c < 4)
    rw [median3x3L, getD_map_range _ _ _ _ (by rw [hlen]; exact cidx_lt hx hy (by omega)),
      h1, h2, h3, median3x3At, if_pos hc]
  · intro x y hx hy
    obtain ⟨h1, h2, h3⟩ := cidx_decode hx (by omega : (3:ℕ) < 4)
    rw [median3x3L, getD_map_range _ _ _ _ (by rw [hlen]; exact cidx_lt hx hy (by omega)),
      h1, h2, h3, median3x3At, if_neg (by omega)]

/-- Witness for C5 at a concrete 1x1 buffer. -/
theorem median3x3_rank4_and_alpha_witness :
    ([1, 2, 3, 4] : List ℕ).length = 1 * 1 * 4
      ∧ (median3x3L [1, 2, 3, 4] 1 1).length = ([1, 2, 3, 4] : List ℕ).length :=
  ⟨rfl, (median3x3_rank4_and_alpha [1, 2, 3, 4] 1 1 rfl).1⟩

/-- Claim C7: for every image with width ≥ 1 and height ≥ 1 the metrics record
satisfies `blurVariance ≥ 0`, `gradientEnergy ≥ 0`, `symmetryScore ∈ [0,1]` and
`spoofRisk ∈ [0,1]`. -/
theorem computeMetrics_bounds (d : ℕ → ℕ) (w h : ℕ) (hw : 1 ≤ w) (hh : 1 ≤ h) :
    0 ≤ (computeMetrics d w h).blurVariance
    ∧ 0 ≤ (computeMetrics d w h).gradientEnergy
    ∧ (0 ≤ (computeMetrics d w h).symmetryScore
        ∧ (computeMetrics d w h).symmetryScore ≤ 1)
    ∧ (0 ≤ (computeMetrics d w h).spoofRisk
        ∧ (computeMetrics d w h).spoofRisk ≤ 1) := by
  refine ⟨blurVarianceD_nonneg d w h, gradientEnergyD_nonneg d w h,
    ⟨symScoreD_nonneg d w h, symScoreD_le_one d w h⟩, ?_, min_le_left _ _⟩
  show (0:ℝ) ≤ spoofRiskD d w h
  rw [spoofRiskD]
  have hbn : min 1 ((blurVarianceD d w h : ℝ) / 2000) ≤ 1 := min_le_left _ _
  have hgn : (0:ℝ) ≤ min 1 (gradientEnergyD d w h / 50) :=
    le_min (by norm_num) (div_nonneg (gradientEnergyD_nonneg d w h) (by norm_num))
  have hsy : (0:ℝ) ≤ (symScoreD d w h : ℝ) := by
    exact_mod_cast symScoreD_nonneg d w h
  have hge : (0:ℝ) ≤ gradientEnergyD d w h := gradientEnergyD_nonneg d w h
  refine le_min (by norm_num) (by nlinarith)

/-- Witness for C7 at a concrete 1x1 image. -/
theorem computeMetrics_bounds_witness :
    (1:ℕ) ≤ 1 ∧ 0 ≤ (computeMetrics imgFlat 1 1).blurVariance :=
  ⟨by decide, (computeMetrics_bounds imgFlat 1 1 (by decide) (by decide)).1⟩

/-- Claim C8: for every image with width < 3 or height < 3 (empty interior
region) `computeMetrics` does not fail and returns `blurVariance = 0` and
`gradientEnergy = 0`; on a 1x1 image the symmetry score is 0 (`mid = 0` yields
zero pair comparisons). -/
theorem computeMetrics_degenerate_zero (d : ℕ → ℕ) (w h : ℕ)
    (hsm : w < 3 ∨ h < 3) :
    (computeMetrics d w h).blurVariance = 0
    ∧ (computeMetrics d w h).gradientEnergy = 0
    ∧ (w = 1 → h = 1 → (computeMetrics d w h).symmetryScore = 0) := by
  have hemp : interiorF w h = ∅ := interiorF_empty hsm
  refine ⟨?_, ?_, ?_⟩
  · show blurVarianceD d w h = 0
    simp [blurVarianceD, lapArr, lapP, lapMean, hemp]
  · show gradientEnergyD d w h = 0
    rw [gradientEnergyD, hemp]
    simp
  · intro hw hh
    show symScoreD d w h = 0
    subst hw
    subst hh
    simp [symScoreD]

/-- Witness for C8 at a concrete 1x1 image. -/
theorem computeMetrics_degenerate_zero_witness :
    ((1:ℕ) < 3 ∨ (1:ℕ) < 3) ∧ (computeMetrics imgFlat 1 1).blurVariance = 0 :=
  ⟨Or.inl (by decide),
    (computeMetrics_degenerate_zero imgFlat 1 1 (Or.inl (by decide))).1⟩

/-- Counterexample to claim C1 as stated: on the 3x3 image whose centre pixel
is white and whose other pixels are black, `blurVariance` is `8 * 1020^2`
(the eight zero-valued border entries of the `lap` array each contribute the
squared interior mean), while the population variance of the Laplacian over
the single interior pixel is 0. -/
theorem blurVariance_ne_interiorPopVariance_cex :
    (computeMetrics imgCenter 3 3).blurVariance = 8323200
    ∧ interiorPopVariance imgCenter 3 3 = 0
    ∧ (computeMetrics imgCenter 3 3).blurVariance
        ≠ interiorPopVariance imgCenter 3 3 := by
  have h1 : blurVarianceD imgCenter 3 3 = 8323200 := by
    norm_num [blurVarianceD, lapArr, lapP, lapMean, lapCount, interiorF, lapRaw,
      grayAt, imgCenter, cidx, Finset.sum_range_succ, Nat.Ico_succ_right,
      Finset.mem_product, Finset.mem_Icc]
  have h2 : interiorPopVariance imgCenter 3 3 = 0 := by
    norm_num [interiorPopVariance, lapCount, interiorF, lapRaw, grayAt,
      imgCenter, cidx, Nat.Ico_succ_right]
  refine ⟨h1, h2, ?_⟩
  show blurVarianceD imgCenter 3 3 ≠ interiorPopVariance imgCenter 3 3
  rw [h1, h2]
  norm_num

/-- Claim C1 amended: for every RGBA image with width ≥ 3 and height ≥ 3,
`blurVariance` equals the population variance of the Laplacian over the
interior pixels PLUS `(w*h - interiorCount) / interiorCount` times the squared
interior mean, because the squared-deviation sum also ranges over the
zero-valued border entries of the `lap` array while the divisor counts
interior pixels only. -/
theorem blurVariance_includes_border_terms (d : ℕ → ℕ) (w h : ℕ)
    (hw : 3 ≤ w) (hh : 3 ≤ h) :
    (computeMetrics d w h).blurVariance =
      interiorPopVariance d w h
        + ((w * h - lapCount w h : ℕ) : ℚ) / (lapCount w h : ℚ)
          * lapMean d w h ^ 2 := by
  have hcpos : 1 ≤ lapCount w h := by
    rw [lapCount_eq]
    exact Nat.mul_pos (by omega) (by omega)
  have hmax : max 1 (lapCount w h) = lapCount w h := max_eq_right hcpos
  set m := lapMean d w h with hmdef
  have hmean : (∑ q ∈ interiorF w h, lapRaw d w q.1 q.2) / (lapCount w h : ℚ)
      = m := by
    rw [hmdef, lapMean, hmax]
  have hsum : ∑ i ∈ Finset.range (w*h), (lapArr d w h i - m)^2
      = ∑ p ∈ Finset.range w ×ˢ Finset.range h, (lapP d w h p - m)^2 := by
    simp only [lapArr]
    exact sum_range_mul_eq_sum_product w h (fun p => (lapP d w h p - m)^2)
  have hout : ∀ p ∈ (Finset.range w ×ˢ Finset.range h) \ interiorF w h,
      (lapP d w h p - m)^2 = m^2 := by
    intro p hp
    rw [Finset.mem_sdiff] at hp
    rw [lapP, if_neg hp.2]
    ring
  have hcard : (Finset.range w ×ˢ Finset.range h).card = w * h := by
    rw [Finset.card_product, Finset.card_range, Finset.card_range]
  have hsplit : ∑ p ∈ Finset.range w ×ˢ Finset.range h, (lapP d w h p - m)^2
      = (∑ p ∈ interiorF w h, (lapRaw d w p.1 p.2 - m)^2)
        + ((w * h - lapCount w h : ℕ) : ℚ) * m^2 := by
    rw [← Finset.sum_sdiff (interiorF_subset w h), Finset.sum_congr rfl hout,
      Finset.sum_const, Finset.card_sdiff (interiorF_subset w h), hcard,
      nsmul_eq_mul]
    rw [Finset.sum_congr rfl (fun p hp => by rw [lapP, if_pos hp]), lapCount]
    exact add_comm _ _
  show blurVarianceD d w h = _
  rw [blurVarianceD, hmax, hsum, hsplit, interiorPopVariance, hmean, add_div]
  have hC : (lapCount w h : ℚ) ≠ 0 := by positivity
  field_simp

/-- Witness for the amended C1 theorem at a concrete 3x3 image. -/
theorem blurVariance_includes_border_terms_witness :
    ((3:ℕ) ≤ 3 ∧ (3:ℕ) ≤ 3)
    ∧ (computeMetrics imgCenter 3 3).blurVariance =
        interiorPopVariance imgCenter 3 3
          + ((3 * 3 - lapCount 3 3 : ℕ) : ℚ) / (lapCount 3 3 : ℚ)
            * lapMean imgCenter 3 3 ^ 2 :=
  ⟨⟨by decide, by decide⟩,
    blurVariance_includes_border_terms imgCenter 3 3 (by decide) (by decide)⟩

/-- Claim C2 fails on the code: on a 3x3 image with radius 1 (so
`2r+1 = 3 ≤ min(w, h)`) whose red sample at pixel `(1, 0)` is 90, the source's
`boxBlur` output at sample `(0, 0, red)` is 0 while the claimed centred
edge-replicated two-pass box mean is 20 — each pass writes before updating the
running sum, so every output sample is the mean of the window centred one
position earlier. -/
theorem boxBlur_window_shifted_cex :
    boxBlurAt imgDot 3 3 1 0 0 0 = 0 ∧ specBoxAt imgDot 3 3 1 0 0 0 = 20
    ∧ boxBlurAt imgDot 3 3 1 0 0 0 ≠ specBoxAt imgDot 3 3 1 0 0 0 := by
  have hcode : boxBlurAt imgDot 3 3 1 0 0 0 = 0 := by
    have h0 : boxBlurHAt imgDot 3 1 0 0 0 = 0 := by
      rw [boxBlurHAt]
      norm_num [slideVal, slideInit, slideDelta, imgDot, cidx,
        Finset.sum_range_succ]
      exact_mod_cast toByte_jsRound_natCast 0 (by norm_num)
    rw [boxBlurAt]
    norm_num [slideVal, slideInit, slideDelta, h0, Finset.sum_range_succ]
    exact_mod_cast toByte_jsRound_natCast 0 (by norm_num)
  have hspec : specBoxAt imgDot 3 3 1 0 0 0 = 20 := by
    have h0 : specBoxHAt imgDot 3 1 0 0 0 = 30 := by
      rw [specBoxHAt]
      norm_num [imgDot, cidx, clampC, Finset.sum_range_succ]
      exact_mod_cast toByte_jsRound_natCast 30 (by norm_num)
    have h1 : specBoxHAt imgDot 3 1 0 1 0 = 0 := by
      rw [specBoxHAt]
      norm_num [imgDot, cidx, clampC, Finset.sum_range_succ]
      exact_mod_cast toByte_jsRound_natCast 0 (by norm_num)
    rw [specBoxAt]
    norm_num [clampC, h0, h1, Finset.sum_range_succ]
    exact_mod_cast toByte_jsRound_natCast 20 (by norm_num)
  exact ⟨hcode, hspec, by rw [hcode, hspec]; norm_num⟩

/-- Claim C3 fails on the code: on a 2x1 image with red samples 10 and 200,
`boxBlur` with radius 0 returns at sample `(1, 0, red)` the value of the
neighbouring sample `(0, 0, red)` (10) instead of the sample's own value
(200): with radius 0 each pass is a one-pixel shift with edge replication,
not the identity. -/
theorem boxBlur_radius_zero_not_id :
    boxBlurAt imgPair 2 1 0 1 0 0 = imgPair (cidx 2 0 0 0)
    ∧ imgPair (cidx 2 0 0 0) = 10 ∧ imgPair (cidx 2 1 0 0) = 200
    ∧ boxBlurAt imgPair 2 1 0 1 0 0 ≠ imgPair (cidx 2 1 0 0) := by
  have hcode : boxBlurAt imgPair 2 1 0 1 0 0 = 10 := by
    have h0 : boxBlurHAt imgPair 2 0 1 0 0 = 10 := by
      rw [boxBlurHAt]
      norm_num [slideVal, slideInit, slideDelta, imgPair, cidx,
        Finset.sum_range_succ]
      exact_mod_cast toByte_jsRound_natCast 10 (by norm_num)
    rw [boxBlurAt]
    norm_num [slideVal, slideInit, slideDelta, h0, Finset.sum_range_succ]
    exact_mod_cast toByte_jsRound_natCast 10 (by norm_num)
  refine ⟨by rw [hcode]; decide, by decide, by decide, by rw [hcode]; decide⟩

/-- Claim C10: if every pixel's quantised 8-bit luma falls in one histogram
bin `b` (for example on any constant-colour image), then `cdf[b] = total =
cdfMin`, the remap numerator vanishes, and `equalizeLuma` maps the equalised
luminance of every pixel to exactly 0; every output pixel is reconstructed
from luminance 0 with the pixel's original `U`, `V`. -/
theorem equalizeLuma_single_bin_zero (src : ℕ → ℕ) (w h b : ℕ)
    (hb : ∀ p < w * h, yQ src p = b) :
    ∀ p < w * h, eqY src w h p = 0
      ∧ equalizeAt src w h p 0 =
          toByte (jsRound ((0 + 1.13983 * vOf src p) * 255))
      ∧ equalizeAt src w h p 1 =
          toByte (jsRound ((0 - 0.39465 * uOf src p - 0.58060 * vOf src p) * 255))
      ∧ equalizeAt src w h p 2 =
          toByte (jsRound ((0 + 2.03211 * uOf src p) * 255)) := by
  intro p hp
  have htot : 0 < w * h := by omega
  have hbval : yQ src p = b := hb p hp
  have hb256 : b < 256 := by
    rw [← hbval, yQ]
    exact Nat.mod_lt _ (by norm_num)
  have hhist_b : histF src (w*h) b = w*h := by
    rw [histF, Finset.filter_true_of_mem, Finset.card_range]
    intro q hq
    exact hb q (Finset.mem_range.mp hq)
  have hhist_ne : ∀ t, t ≠ b → histF src (w*h) t = 0 := by
    intro t ht
    rw [histF, Finset.card_eq_zero, Finset.filter_eq_empty_iff]
    intro q hq
    rw [hb q (Finset.mem_range.mp hq)]
    exact fun hbt => ht hbt.symm
  have hcdf : ∀ t, cdfF src (w*h) t = if b ≤ t then w*h else 0 := by
    intro t
    rw [cdfF]
    rcases le_or_lt b t with hle | hlt
    · rw [if_pos hle, Finset.sum_eq_single b
        (fun k _ hk => hhist_ne k hk)
        (fun hnb => absurd (Finset.mem_range.mpr (by omega)) hnb)]
      exact hhist_b
    · rw [if_neg (by omega)]
      exact Finset.sum_eq_zero fun k hk =>
        hhist_ne k (by rw [Finset.mem_range] at hk; omega)
  have hfind : (List.range 256).find? (fun t => decide (0 < cdfF src (w*h) t))
      = some b := by
    apply find?_range_eq_some _ _ _ hb256
    · rw [hcdf b, if_pos le_rfl]
      simpa using htot
    · intro t ht
      rw [hcdf t, if_neg (by omega)]
      simp
  have hmin : cdfMinF src (w*h) = w*h := by
    rw [cdfMinF, hfind, Option.map_some', Option.getD_some, hcdf b,
      if_pos le_rfl]
  have heq : eqY src w h p = 0 := by
    rw [eqY, hbval, hcdf b, if_pos le_rfl, hmin]
    norm_num
  have e0 : equalizeAt src w h p 0 =
      toByte (jsRound ((eqY src w h p + 1.13983 * vOf src p) * 255)) := rfl
  have e1 : equalizeAt src w h p 1 =
      toByte (jsRound ((eqY src w h p - 0.39465 * uOf src p
        - 0.58060 * vOf src p) * 255)) := rfl
  have e2 : equalizeAt src w h p 2 =
      toByte (jsRound ((eqY src w h p + 2.03211 * uOf src p) * 255)) := rfl
  refine ⟨heq, ?_, ?_, ?_⟩
  · rw [e0, heq]
  · rw [e1, heq]
  · rw [e2, heq]

/-- Witness for C10 at a concrete constant-colour 1x1 image (all samples 100,
quantised luma bin 100). -/
theorem equalizeLuma_single_bin_zero_witness :
    (∀ p < 1 * 1, yQ imgFlat p = 100) ∧ eqY imgFlat 1 1 0 = 0 := by
  have hb : ∀ p < 1 * 1, yQ imgFlat p = 100 := by
    intro p hp
    have hp0 : p = 0 := by omega
    subst hp0
    rw [yQ, yOf]
    norm_num [rN, gN, bN, imgFlat]
    rw [show (100:ℚ) = ((100:ℕ):ℚ) by norm_num, jsRound_natCast]
    decide
  exact ⟨hb, (equalizeLuma_single_bin_zero imgFlat 1 1 100 hb 0 (by decide)).1⟩

end ForensicFace
